import Mathlib

/-!
Shallow embedding of the geometric core of the `manifold` repository
(`src/utilities/include/structs.h`) and of its mesh export routine
(`ExportMesh`, `src/unnamed/part_000` = `meshIO.cpp`), together with
theorems settling the specification claims.

Modelling conventions:
* `float` scalars are modelled as exact rationals `ℚ`; the claims under
  study are algebraic/order-theoretic identities intended over exact
  arithmetic.
* `Box` corner coordinates may be `±∞` (the default-constructed `Box` uses
  `1.0f/0.0f` and `-1.0f/0.0f`), so they are modelled by the extended
  rationals `WithBot (WithTop ℚ)`; IEEE `min`/`max`/comparisons on
  non-NaN floats agree with the linear order on this type.  NaN-producing
  float operations (`±∞ * 0` inside the box-scaling operator, matrix
  products on non-finite corners) are modelled as `Option` failures.
* The libm calls `sin`/`cos` inside `sind` are external to the repository;
  they are modelled as function parameters, with the exactness facts the
  code relies on (`sin(±0) = ±0`, `cos(0) = 1`, exact in IEEE libm) taken
  as hypotheses.  The one rounding-sensitive float operation on the
  claims' paths, the binary32 addition `x + 90.0f` inside `cosd`, is
  modelled explicitly by round-to-nearest-even (`fl32`).
* Out-of-range element accesses (undefined behaviour in C++) are modelled
  as `Option` failures.
-/

namespace manifold

/-- A 2D vector (`glm::vec2`), components modelled as `ℚ`. -/
@[ext]
structure Vec2 where
  x : ℚ
  y : ℚ
deriving DecidableEq

/-- Componentwise subtraction of 2D vectors. -/
def Vec2.sub (a b : Vec2) : Vec2 := ⟨a.x - b.x, a.y - b.y⟩

instance : Sub Vec2 := ⟨Vec2.sub⟩

@[simp] theorem Vec2.sub_x (a b : Vec2) : (a - b).x = a.x - b.x := rfl

@[simp] theorem Vec2.sub_y (a b : Vec2) : (a - b).y = a.y - b.y := rfl

/-- Dot product of 2D vectors (`glm::dot`). -/
def Vec2.dot (a b : Vec2) : ℚ := a.x * b.x + a.y * b.y

/-- `inline int Signum(float val) { return (val > 0) - (val < 0); }` -/
def Signum (val : ℚ) : ℤ :=
  (if 0 < val then 1 else 0) - (if val < 0 then 1 else 0)

/-- Orientation predicate from `structs.h`:
```
inline int CCW(glm::vec2 p0, glm::vec2 p1, glm::vec2 p2, float tol) {
  glm::vec2 v1 = p1 - p0;
  glm::vec2 v2 = p2 - p0;
  float area = v1.x * v2.y - v1.y * v2.x;
  float base2 = glm::max(glm::dot(v1, v1), glm::dot(v2, v2));
  if (area * area <= base2 * tol * tol)
    return 0;
  else
    return area > 0 ? 1 : -1;
}
```
-/
def CCW (p0 p1 p2 : Vec2) (tol : ℚ) : ℤ :=
  let v1 := p1 - p0
  let v2 := p2 - p0
  let area := v1.x * v2.y - v1.y * v2.x
  let base2 := max (Vec2.dot v1 v1) (Vec2.dot v2 v2)
  if area * area ≤ base2 * tol * tol then 0
  else if 0 < area then 1 else -1

/-- Modelled from the spec (§4.1 wording, for comparison against `CCW`):
computes `area = v1.x·v2.y − v1.y·v2.x` with `v1 = p1−p0`, `v2 = p2−p0`,
and `base2 = max(|v1|², |v2|²)`; returns 0 when `area² ≤ base2·tol²`,
else `sign(area)`. -/
def CCWspec (p0 p1 p2 : Vec2) (tol : ℚ) : ℤ :=
  let v1 := p1 - p0
  let v2 := p2 - p0
  let area := v1.x * v2.y - v1.y * v2.x
  let base2 := max (Vec2.dot v1 v1) (Vec2.dot v2 v2)
  if area ^ 2 ≤ base2 * tol ^ 2 then 0 else Signum area

/-- The core of `CCW` as a function of the two difference vectors;
`CCW` is definitionally `ccwCore (p1 - p0) (p2 - p0) tol`. -/
def ccwCore (v1 v2 : Vec2) (tol : ℚ) : ℤ :=
  if (v1.x * v2.y - v1.y * v2.x) * (v1.x * v2.y - v1.y * v2.x) ≤
      max (Vec2.dot v1 v1) (Vec2.dot v2 v2) * tol * tol then 0
  else if 0 < v1.x * v2.y - v1.y * v2.x then 1 else -1

theorem CCW_eq_ccwCore (p0 p1 p2 : Vec2) (tol : ℚ) :
    CCW p0 p1 p2 tol = ccwCore (p1 - p0) (p2 - p0) tol := rfl

theorem Vec2.dot_self_nonneg (v : Vec2) : 0 ≤ Vec2.dot v v := by
  unfold Vec2.dot
  nlinarith [mul_self_nonneg v.x, mul_self_nonneg v.y]

theorem ccwCore_eq_spec (v1 v2 : Vec2) (tol : ℚ) :
    ccwCore v1 v2 tol =
      (if (v1.x * v2.y - v1.y * v2.x) ^ 2 ≤
          max (Vec2.dot v1 v1) (Vec2.dot v2 v2) * tol ^ 2 then 0
       else Signum (v1.x * v2.y - v1.y * v2.x)) := by
  unfold ccwCore
  set a := v1.x * v2.y - v1.y * v2.x with ha
  set b2 := max (Vec2.dot v1 v1) (Vec2.dot v2 v2) with hb2
  have hb : 0 ≤ b2 := le_trans (Vec2.dot_self_nonneg v1) (le_max_left _ _)
  have hcond : (a * a ≤ b2 * tol * tol) ↔ (a ^ 2 ≤ b2 * tol ^ 2) := by
    constructor <;> intro h <;> nlinarith [h]
  by_cases h : a ^ 2 ≤ b2 * tol ^ 2
  · rw [if_pos (hcond.mpr h), if_pos h]
  · rw [if_neg (fun hh => h (hcond.mp hh)), if_neg h]
    have hane : a ≠ 0 := by
      intro h0
      exact h (by rw [h0]; nlinarith [sq_nonneg tol, hb])
    unfold Signum
    rcases lt_or_gt_of_ne hane with hlt | hgt
    · rw [if_neg (by linarith), if_neg (asymm hlt), if_pos hlt]; norm_num
    · rw [if_pos hgt, if_pos hgt, if_neg (by linarith)]; norm_num

theorem ccwCore_swap (v1 v2 : Vec2) (tol : ℚ) :
    ccwCore v2 v1 tol = - ccwCore v1 v2 tol := by
  unfold ccwCore
  have harea : v2.x * v1.y - v2.y * v1.x = -(v1.x * v2.y - v1.y * v2.x) := by
    ring
  rw [harea, max_comm (Vec2.dot v2 v2) (Vec2.dot v1 v1)]
  set a := v1.x * v2.y - v1.y * v2.x with ha
  set b2 := max (Vec2.dot v1 v1) (Vec2.dot v2 v2) with hb2
  have hb : 0 ≤ b2 := le_trans (Vec2.dot_self_nonneg v1) (le_max_left _ _)
  have hsq : -a * -a = a * a := by ring
  rw [hsq]
  by_cases h : a * a ≤ b2 * tol * tol
  · rw [if_pos h, if_pos h]; rfl
  · rw [if_neg h, if_neg h]
    have hane : a ≠ 0 := by
      intro h0
      exact h (by rw [h0]; nlinarith [sq_nonneg tol, hb])
    rcases lt_or_gt_of_ne hane with hlt | hgt
    · rw [if_pos (by linarith), if_neg (asymm hlt)]; norm_num
    · rw [if_neg (by linarith), if_pos hgt]

/-- Claim C3: `CCW(p0, p1, p2, tol)` computes `v1 = p1−p0`, `v2 = p2−p0`,
`area = v1.x·v2.y − v1.y·v2.x`, `base2 = max(|v1|², |v2|²)`, returns 0 when
`area² ≤ base2·tol²` (boundary classified as 0), otherwise the sign of
`area`; in particular `CCW((0,0),(1,0),(0,1), 1e-5) = 1` and
`CCW((0,0),(1,0),(2,0), 1e-5) = 0`. -/
theorem claim_C3 :
    (∀ (p0 p1 p2 : Vec2) (tol : ℚ), CCW p0 p1 p2 tol = CCWspec p0 p1 p2 tol) ∧
    CCW ⟨0, 0⟩ ⟨1, 0⟩ ⟨0, 1⟩ (1 / 100000) = 1 ∧
    CCW ⟨0, 0⟩ ⟨1, 0⟩ ⟨2, 0⟩ (1 / 100000) = 0 := by
  refine ⟨fun p0 p1 p2 tol => ?_, by norm_num [CCW, Vec2.dot],
    by norm_num [CCW, Vec2.dot]⟩
  rw [CCW_eq_ccwCore, ccwCore_eq_spec]
  rfl

/-- Claim C5: for all 2D points and every `tol > 0`,
`CCW(p0,p1,p2,tol) = -CCW(p0,p2,p1,tol)` (antisymmetry under swapping the
last two arguments). -/
theorem claim_C5 (p0 p1 p2 : Vec2) (tol : ℚ) (htol : 0 < tol) :
    CCW p0 p1 p2 tol = - CCW p0 p2 p1 tol := by
  rw [CCW_eq_ccwCore, CCW_eq_ccwCore, ccwCore_swap]

/-- Witness for C5 at a concrete input with `tol = 1/100000 > 0`. -/
theorem claim_C5_witness :
    (0 : ℚ) < 1 / 100000 ∧
    CCW ⟨0, 0⟩ ⟨1, 0⟩ ⟨0, 1⟩ (1 / 100000) =
      - CCW ⟨0, 0⟩ ⟨0, 1⟩ ⟨1, 0⟩ (1 / 100000) :=
  ⟨by norm_num, claim_C5 ⟨0, 0⟩ ⟨1, 0⟩ ⟨0, 1⟩ (1 / 100000) (by norm_num)⟩

/-- Claim C8: `Signum` returns −1, 0, or +1, and returns 0 only when the
input is exactly zero. -/
theorem claim_C8 (x : ℚ) :
    (Signum x = -1 ∨ Signum x = 0 ∨ Signum x = 1) ∧ (Signum x = 0 ↔ x = 0) := by
  unfold Signum
  rcases lt_trichotomy x 0 with h | h | h
  · rw [if_neg (by linarith), if_pos h]
    exact ⟨Or.inl rfl, by constructor <;> intro hh <;> simp_all⟩
  · subst h
    norm_num
  · rw [if_pos h, if_neg (by linarith)]
    exact ⟨Or.inr (Or.inr rfl), by constructor <;> intro hh <;> simp_all⟩

/-- Extended rationals: the value domain of `Box` corner coordinates.
`⊥` models `-inf`, `⊤` models `+inf` (no NaN: NaN-producing operations are
modelled as `Option` failures). -/
abbrev ERat : Type := WithBot (WithTop ℚ)

/-- Embed a finite rational into `ERat`. -/
def ERat.q (a : ℚ) : ERat := ((a : WithTop ℚ) : WithBot (WithTop ℚ))

/-- A 3D vector (`glm::vec3` / `glm::ivec3`), generic in the component
type. -/
@[ext]
structure Vec3 (α : Type) where
  x : α
  y : α
  z : α
deriving DecidableEq

/-- Componentwise minimum (`glm::min` on vectors; on non-NaN floats this is
the lattice minimum). -/
def Vec3.cmin [LinearOrder α] (a b : Vec3 α) : Vec3 α :=
  ⟨min a.x b.x, min a.y b.y, min a.z b.z⟩

/-- Componentwise maximum (`glm::max` on vectors). -/
def Vec3.cmax [LinearOrder α] (a b : Vec3 α) : Vec3 α :=
  ⟨max a.x b.x, max a.y b.y, max a.z b.z⟩

/-- Componentwise `≤` (`glm::all(glm::lessThanEqual(a, b))`). -/
def Vec3.le [LE α] (a b : Vec3 α) : Prop := a.x ≤ b.x ∧ a.y ≤ b.y ∧ a.z ≤ b.z

instance [LE α] [DecidableRel (α := α) (· ≤ ·)] (a b : Vec3 α) :
    Decidable (Vec3.le a b) := by
  unfold Vec3.le
  infer_instance

/-- Embed a finite rational 3-vector into `ERat` components. -/
def Vec3.toERat (v : Vec3 ℚ) : Vec3 ERat := ⟨ERat.q v.x, ERat.q v.y, ERat.q v.z⟩

/-- Extract the finite rational components of an `ERat` vector; `none` if
any component is `±∞`. -/
def Vec3.toQ (v : Vec3 ERat) : Option (Vec3 ℚ) := do
  let a ← WithBot.recBotCoe none (WithTop.recTopCoe none some) v.x
  let b ← WithBot.recBotCoe none (WithTop.recTopCoe none some) v.y
  let c ← WithBot.recBotCoe none (WithTop.recTopCoe none some) v.z
  pure ⟨a, b, c⟩

/-- Multiply an `ERat` by a finite rational, following IEEE float
multiplication: `±∞ * 0` is NaN, modelled as `none`. -/
def ERat.mulQ (e : ERat) (s : ℚ) : Option ERat :=
  WithBot.recBotCoe
    (if 0 < s then some ⊥ else if s < 0 then some ⊤ else none)
    (fun t => WithTop.recTopCoe
      (if 0 < s then some ⊤ else if s < 0 then some ⊥ else none)
      (fun a => some (ERat.q (a * s))) t) e

/-- Componentwise `ERat.mulQ`. -/
def Vec3.mulQ (v : Vec3 ERat) (s : Vec3 ℚ) : Option (Vec3 ERat) := do
  let a ← v.x.mulQ s.x
  let b ← v.y.mulQ s.y
  let c ← v.z.mulQ s.z
  pure ⟨a, b, c⟩

/-- A 4x3 matrix (`glm::mat4x3`): an affine transform given by four columns
(linear part `c0 c1 c2`, translation `c3`). -/
structure Mat4x3 where
  c0 : Vec3 ℚ
  c1 : Vec3 ℚ
  c2 : Vec3 ℚ
  c3 : Vec3 ℚ

/-- Apply the affine transform: `transform * glm::vec4(v, 1.0f)`. -/
def Mat4x3.apply (m : Mat4x3) (v : Vec3 ℚ) : Vec3 ℚ :=
  ⟨m.c0.x * v.x + m.c1.x * v.y + m.c2.x * v.z + m.c3.x,
   m.c0.y * v.x + m.c1.y * v.y + m.c2.y * v.z + m.c3.y,
   m.c0.z * v.x + m.c1.z * v.y + m.c2.z * v.z + m.c3.z⟩

/-- Axis-aligned bounding box (`struct Box`): a `(min, max)` corner pair. -/
@[ext]
structure Box where
  min : Vec3 ERat
  max : Vec3 ERat
deriving DecidableEq

/-- The default constructor `Box()`:
`min = glm::vec3(1.0f / 0.0f)` (that is `+∞`),
`max = glm::vec3(-1.0f / 0.0f)` (that is `-∞`). -/
def Box.default : Box := ⟨⟨⊤, ⊤, ⊤⟩, ⟨⊥, ⊥, ⊥⟩⟩

/-- The two-point constructor `Box(p1, p2)`:
`min = glm::min(p1, p2); max = glm::max(p1, p2);`. -/
def Box.ofPoints (p1 p2 : Vec3 ERat) : Box := ⟨Vec3.cmin p1 p2, Vec3.cmax p1 p2⟩

/-- `bool Contains(const Box& box)`:
`glm::all(glm::greaterThanEqual(box.min, min)) &&
 glm::all(glm::greaterThanEqual(max, box.max))`. -/
def Box.contains (b box : Box) : Prop := Vec3.le b.min box.min ∧ Vec3.le box.max b.max

instance (b box : Box) : Decidable (Box.contains b box) := by
  unfold Box.contains
  infer_instance

/-- `void Union(const glm::vec3 p)`: expands this box to include the point
(`min = glm::min(min, p); max = glm::max(max, p);`); the mutation is
modelled by returning the updated box. -/
def Box.unionPoint (b : Box) (p : Vec3 ERat) : Box :=
  ⟨Vec3.cmin b.min p, Vec3.cmax b.max p⟩

/-- `Box Union(const Box& box)`:
`out.min = glm::min(min, box.min); out.max = glm::max(max, box.max);`. -/
def Box.union (b box : Box) : Box :=
  ⟨Vec3.cmin b.min box.min, Vec3.cmax b.max box.max⟩

/-- `Box Transform(const glm::mat4x3& transform)`: transforms both corners
and re-mins/maxes them.  Non-finite corners would meet `0 * ∞` inside the
matrix product (NaN), modelled as `none`. -/
def Box.transform (b : Box) (m : Mat4x3) : Option Box := do
  let mn ← b.min.toQ
  let mx ← b.max.toQ
  let minT := m.apply mn
  let maxT := m.apply mx
  pure ⟨(Vec3.cmin minT maxT).toERat, (Vec3.cmax minT maxT).toERat⟩

/-- `Box operator+(glm::vec3 shift)`:
`out.min = min + shift; out.max = max + shift;`
(adding a finite float to `±∞` keeps `±∞`, matching `ERat` addition). -/
def Box.add (b : Box) (shift : Vec3 ℚ) : Box :=
  ⟨⟨b.min.x + ERat.q shift.x, b.min.y + ERat.q shift.y, b.min.z + ERat.q shift.z⟩,
   ⟨b.max.x + ERat.q shift.x, b.max.y + ERat.q shift.y, b.max.z + ERat.q shift.z⟩⟩

/-- `Box& operator+=(glm::vec3 shift)`: `min += shift; max += shift;`
(same componentwise update as `operator+`, applied in place; the mutation
is modelled by returning the updated box). -/
def Box.addAssign (b : Box) (shift : Vec3 ℚ) : Box :=
  ⟨⟨b.min.x + ERat.q shift.x, b.min.y + ERat.q shift.y, b.min.z + ERat.q shift.z⟩,
   ⟨b.max.x + ERat.q shift.x, b.max.y + ERat.q shift.y, b.max.z + ERat.q shift.z⟩⟩

/-- `Box operator*(glm::vec3 scale)`:
`out.min = min * scale; out.max = max * scale;` (no re-min/maxing). -/
def Box.mul (b : Box) (scale : Vec3 ℚ) : Option Box := do
  let mn ← b.min.mulQ scale
  let mx ← b.max.mulQ scale
  pure ⟨mn, mx⟩

/-- `Box& operator*=(glm::vec3 scale)`: `min *= scale; max *= scale;`
(same componentwise update as `operator*`, applied in place). -/
def Box.mulAssign (b : Box) (scale : Vec3 ℚ) : Option Box := do
  let mn ← b.min.mulQ scale
  let mx ← b.max.mulQ scale
  pure ⟨mn, mx⟩

/-- `bool DoesOverlap(const Box& box)`:
`min.x <= box.max.x && min.y <= box.max.y && min.z <= box.max.z &&
 max.x >= box.min.x && max.y >= box.min.y && max.z >= box.min.z`. -/
def Box.doesOverlap (b box : Box) : Prop :=
  b.min.x ≤ box.max.x ∧ b.min.y ≤ box.max.y ∧ b.min.z ≤ box.max.z ∧
  box.min.x ≤ b.max.x ∧ box.min.y ≤ b.max.y ∧ box.min.z ≤ b.max.z

instance (b box : Box) : Decidable (Box.doesOverlap b box) := by
  unfold Box.doesOverlap
  infer_instance

/-- `bool DoesOverlap(glm::vec3 p)` ("projected in z"):
`p.x <= max.x && p.x >= min.x && p.y <= max.y && p.y >= min.y`. -/
def Box.doesOverlapPt (b : Box) (p : Vec3 ERat) : Prop :=
  p.x ≤ b.max.x ∧ b.min.x ≤ p.x ∧ p.y ≤ b.max.y ∧ b.min.y ≤ p.y

instance (b : Box) (p : Vec3 ERat) : Decidable (Box.doesOverlapPt b p) := by
  unfold Box.doesOverlapPt
  infer_instance

theorem Vec3.cmin_comm [LinearOrder α] (a b : Vec3 α) :
    Vec3.cmin a b = Vec3.cmin b a := by
  unfold Vec3.cmin
  rw [min_comm a.x b.x, min_comm a.y b.y, min_comm a.z b.z]

theorem Vec3.cmax_comm [LinearOrder α] (a b : Vec3 α) :
    Vec3.cmax a b = Vec3.cmax b a := by
  unfold Vec3.cmax
  rw [max_comm a.x b.x, max_comm a.y b.y, max_comm a.z b.z]

theorem Vec3.cmin_assoc [LinearOrder α] (a b c : Vec3 α) :
    Vec3.cmin (Vec3.cmin a b) c = Vec3.cmin a (Vec3.cmin b c) := by
  unfold Vec3.cmin
  rw [min_assoc a.x b.x c.x, min_assoc a.y b.y c.y, min_assoc a.z b.z c.z]

theorem Vec3.cmax_assoc [LinearOrder α] (a b c : Vec3 α) :
    Vec3.cmax (Vec3.cmax a b) c = Vec3.cmax a (Vec3.cmax b c) := by
  unfold Vec3.cmax
  rw [max_assoc a.x b.x c.x, max_assoc a.y b.y c.y, max_assoc a.z b.z c.z]

theorem Vec3.cmin_le_left [LinearOrder α] (a b : Vec3 α) :
    Vec3.le (Vec3.cmin a b) a :=
  ⟨min_le_left _ _, min_le_left _ _, min_le_left _ _⟩

theorem Vec3.cmin_le_right [LinearOrder α] (a b : Vec3 α) :
    Vec3.le (Vec3.cmin a b) b :=
  ⟨min_le_right _ _, min_le_right _ _, min_le_right _ _⟩

theorem Vec3.le_cmax_left [LinearOrder α] (a b : Vec3 α) :
    Vec3.le a (Vec3.cmax a b) :=
  ⟨le_max_left _ _, le_max_left _ _, le_max_left _ _⟩

theorem Vec3.le_cmax_right [LinearOrder α] (a b : Vec3 α) :
    Vec3.le b (Vec3.cmax a b) :=
  ⟨le_max_right _ _, le_max_right _ _, le_max_right _ _⟩

theorem Vec3.le_trans' [Preorder α] {a b c : Vec3 α}
    (h1 : Vec3.le a b) (h2 : Vec3.le b c) : Vec3.le a c :=
  ⟨le_trans h1.1 h2.1, le_trans h1.2.1 h2.2.1, le_trans h1.2.2 h2.2.2⟩

/-- Claim C4: for all boxes `a`, `b`: `a.Union(b)` contains both `a` and
`b`; `Union` on boxes is commutative and associative; and the
default-constructed box is the identity element of `Union`. -/
theorem claim_C4 :
    (∀ a b : Box, (a.union b).contains a ∧ (a.union b).contains b) ∧
    (∀ a b : Box, a.union b = b.union a) ∧
    (∀ a b c : Box, (a.union b).union c = a.union (b.union c)) ∧
    (∀ b : Box, Box.default.union b = b) := by
  refine ⟨fun a b => ?_, fun a b => ?_, fun a b c => ?_, fun b => ?_⟩
  · exact ⟨⟨Vec3.cmin_le_left _ _, Vec3.le_cmax_left _ _⟩,
      ⟨Vec3.cmin_le_right _ _, Vec3.le_cmax_right _ _⟩⟩
  · unfold Box.union
    rw [Vec3.cmin_comm, Vec3.cmax_comm]
  · unfold Box.union
    rw [Vec3.cmin_assoc, Vec3.cmax_assoc]
  · unfold Box.union Box.default Vec3.cmin Vec3.cmax
    rw [min_top_left, min_top_left, min_top_left,
        max_bot_left, max_bot_left, max_bot_left]

theorem ERat.q_le_q {a b : ℚ} : ERat.q a ≤ ERat.q b ↔ a ≤ b := by
  unfold ERat.q
  rw [WithBot.coe_le_coe, WithTop.coe_le_coe]

theorem ERat.mulQ_bot (s : ℚ) :
    ERat.mulQ ⊥ s = if 0 < s then some ⊥ else if s < 0 then some ⊤ else none :=
  rfl

theorem ERat.mulQ_top (s : ℚ) :
    ERat.mulQ ⊤ s = if 0 < s then some ⊤ else if s < 0 then some ⊥ else none :=
  rfl

theorem ERat.mulQ_coe (a s : ℚ) :
    ERat.mulQ ((a : WithTop ℚ) : ERat) s = some (ERat.q (a * s)) :=
  rfl

theorem ERat.mulQ_mono {e e' : ERat} {s : ℚ} (hs : 0 ≤ s) {r r' : ERat}
    (h : ERat.mulQ e s = some r) (h' : ERat.mulQ e' s = some r')
    (hee : e ≤ e') : r ≤ r' := by
  rcases lt_or_eq_of_le hs with hpos | hzero
  · induction e using WithBot.recBotCoe with
    | bot =>
      rw [ERat.mulQ_bot, if_pos hpos, Option.some_inj] at h
      rw [← h]
      exact bot_le
    | coe t =>
      induction t using WithTop.recTopCoe with
      | top =>
        have htop : e' = (⊤ : ERat) := top_le_iff.mp hee
        subst htop
        rw [show ((⊤ : WithTop ℚ) : ERat) = (⊤ : ERat) from rfl,
          ERat.mulQ_top, if_pos hpos, Option.some_inj] at h
        rw [ERat.mulQ_top, if_pos hpos, Option.some_inj] at h'
        rw [← h, ← h']
      | coe a =>
        induction e' using WithBot.recBotCoe with
        | bot => exact absurd hee (by simp)
        | coe t' =>
          induction t' using WithTop.recTopCoe with
          | top =>
            rw [show ((⊤ : WithTop ℚ) : ERat) = (⊤ : ERat) from rfl,
              ERat.mulQ_top, if_pos hpos, Option.some_inj] at h'
            rw [← h']
            exact le_top
          | coe b =>
            rw [ERat.mulQ_coe, Option.some_inj] at h h'
            rw [← h, ← h']
            have hab : a ≤ b := by
              rw [WithBot.coe_le_coe, WithTop.coe_le_coe] at hee
              exact hee
            exact ERat.q_le_q.mpr (mul_le_mul_of_nonneg_right hab hs)
  · have hs' : ¬ 0 < s := by rw [← hzero]; exact lt_irrefl 0
    have hs'' : ¬ s < 0 := by rw [← hzero]; exact lt_irrefl 0
    induction e using WithBot.recBotCoe with
    | bot => rw [ERat.mulQ_bot, if_neg hs', if_neg hs''] at h; exact absurd h (by simp)
    | coe t =>
      induction t using WithTop.recTopCoe with
      | top =>
        rw [show ((⊤ : WithTop ℚ) : ERat) = (⊤ : ERat) from rfl,
          ERat.mulQ_top, if_neg hs', if_neg hs''] at h
        exact absurd h (by simp)
      | coe a =>
        induction e' using WithBot.recBotCoe with
        | bot =>
          rw [ERat.mulQ_bot, if_neg hs', if_neg hs''] at h'
          exact absurd h' (by simp)
        | coe t' =>
          induction t' using WithTop.recTopCoe with
          | top =>
            rw [show ((⊤ : WithTop ℚ) : ERat) = (⊤ : ERat) from rfl,
              ERat.mulQ_top, if_neg hs', if_neg hs''] at h'
            exact absurd h' (by simp)
          | coe b =>
            rw [ERat.mulQ_coe, Option.some_inj] at h h'
            rw [← h, ← h', ← hzero, mul_zero, mul_zero]

/-- Componentwise monotonicity of box scaling, for nonnegative scale. -/
theorem Vec3.mulQ_le_mulQ {v v' : Vec3 ERat} {s : Vec3 ℚ}
    (hx : 0 ≤ s.x) (hy : 0 ≤ s.y) (hz : 0 ≤ s.z) {w w' : Vec3 ERat}
    (h : Vec3.mulQ v s = some w) (h' : Vec3.mulQ v' s = some w')
    (hvv : Vec3.le v v') : Vec3.le w w' := by
  unfold Vec3.mulQ at h h'
  rcases hax : ERat.mulQ v.x s.x with _ | a <;> rw [hax] at h <;>
    simp only [Option.bind_eq_bind, Option.none_bind, Option.some_bind,
      reduceCtorEq] at h
  rcases hay : ERat.mulQ v.y s.y with _ | b <;> rw [hay] at h <;>
    simp only [Option.bind_eq_bind, Option.none_bind, Option.some_bind,
      reduceCtorEq] at h
  rcases haz : ERat.mulQ v.z s.z with _ | c <;> rw [haz] at h <;>
    simp only [Option.bind_eq_bind, Option.none_bind, Option.some_bind,
      reduceCtorEq, Option.pure_def, Option.some_inj] at h
  rcases hbx : ERat.mulQ v'.x s.x with _ | a' <;> rw [hbx] at h' <;>
    simp only [Option.bind_eq_bind, Option.none_bind, Option.some_bind,
      reduceCtorEq] at h'
  rcases hby : ERat.mulQ v'.y s.y with _ | b' <;> rw [hby] at h' <;>
    simp only [Option.bind_eq_bind, Option.none_bind, Option.some_bind,
      reduceCtorEq] at h'
  rcases hbz : ERat.mulQ v'.z s.z with _ | c' <;> rw [hbz] at h' <;>
    simp only [Option.bind_eq_bind, Option.none_bind, Option.some_bind,
      reduceCtorEq, Option.pure_def, Option.some_inj] at h'
  subst h h'
  exact ⟨ERat.mulQ_mono hx hax hbx hvv.1, ERat.mulQ_mono hy hay hby hvv.2.1,
    ERat.mulQ_mono hz haz hbz hvv.2.2⟩

/-- Claim C2 (amended): `min ≤ max` holds for the two-point constructor on
finite points and is preserved by `Union` with a point, `Union` with a box,
`Transform`, `operator+`, `operator+=`, and — provided every scale component
is nonnegative — by `operator*` and `operator*=`. -/
theorem claim_C2 :
    (∀ p1 p2 : Vec3 ℚ, Vec3.le (Box.ofPoints p1.toERat p2.toERat).min
        (Box.ofPoints p1.toERat p2.toERat).max) ∧
    (∀ (b : Box) (p : Vec3 ERat), Vec3.le b.min b.max →
        Vec3.le (b.unionPoint p).min (b.unionPoint p).max) ∧
    (∀ a b : Box, Vec3.le a.min a.max →
        Vec3.le (a.union b).min (a.union b).max) ∧
    (∀ (b : Box) (m : Mat4x3) (b' : Box), b.transform m = some b' →
        Vec3.le b'.min b'.max) ∧
    (∀ (b : Box) (s : Vec3 ℚ), Vec3.le b.min b.max →
        Vec3.le (b.add s).min (b.add s).max ∧
        Vec3.le (b.addAssign s).min (b.addAssign s).max) ∧
    (∀ (b : Box) (s : Vec3 ℚ) (b' : Box), Vec3.le b.min b.max →
        0 ≤ s.x → 0 ≤ s.y → 0 ≤ s.z → b.mul s = some b' →
        Vec3.le b'.min b'.max) ∧
    (∀ (b : Box) (s : Vec3 ℚ) (b' : Box), Vec3.le b.min b.max →
        0 ≤ s.x → 0 ≤ s.y → 0 ≤ s.z → b.mulAssign s = some b' →
        Vec3.le b'.min b'.max) := by
  have hadd : ∀ (b : Box) (s : Vec3 ℚ), Vec3.le b.min b.max →
      Vec3.le (b.add s).min (b.add s).max := by
    intro b s h
    exact ⟨add_le_add_right h.1 _, add_le_add_right h.2.1 _,
      add_le_add_right h.2.2 _⟩
  have hmul : ∀ (b : Box) (s : Vec3 ℚ) (b' : Box), Vec3.le b.min b.max →
      0 ≤ s.x → 0 ≤ s.y → 0 ≤ s.z → b.mul s = some b' →
      Vec3.le b'.min b'.max := by
    intro b s b' h hx hy hz hm
    unfold Box.mul at hm
    rcases hmn : Vec3.mulQ b.min s with _ | mn <;> rw [hmn] at hm <;>
      simp only [Option.bind_eq_bind, Option.none_bind, Option.some_bind,
        reduceCtorEq] at hm
    rcases hmx : Vec3.mulQ b.max s with _ | mx <;> rw [hmx] at hm <;>
      simp only [Option.bind_eq_bind, Option.none_bind, Option.some_bind,
        reduceCtorEq, Option.pure_def, Option.some_inj] at hm
    subst hm
    exact Vec3.mulQ_le_mulQ hx hy hz hmn hmx h
  refine ⟨fun p1 p2 => ?_, fun b p h => ?_, fun a b h => ?_,
    fun b m b' h => ?_, fun b s h => ⟨hadd b s h, hadd b s h⟩,
    hmul, fun b s b' h hx hy hz hm => hmul b s b' h hx hy hz hm⟩
  · exact ⟨le_trans (min_le_left _ _) (le_max_left _ _),
      le_trans (min_le_left _ _) (le_max_left _ _),
      le_trans (min_le_left _ _) (le_max_left _ _)⟩
  · exact Vec3.le_trans' (Vec3.cmin_le_left _ _)
      (Vec3.le_trans' h (Vec3.le_cmax_left _ _))
  · exact Vec3.le_trans' (Vec3.cmin_le_left _ _)
      (Vec3.le_trans' h (Vec3.le_cmax_left _ _))
  · unfold Box.transform at h
    rcases hmn : Vec3.toQ b.min with _ | mn <;> rw [hmn] at h <;>
      simp only [Option.bind_eq_bind, Option.none_bind, Option.some_bind,
        reduceCtorEq] at h
    rcases hmx : Vec3.toQ b.max with _ | mx <;> rw [hmx] at h <;>
      simp only [Option.bind_eq_bind, Option.none_bind, Option.some_bind,
        reduceCtorEq, Option.pure_def, Option.some_inj] at h
    subst h
    exact ⟨ERat.q_le_q.mpr (min_le_max), ERat.q_le_q.mpr (min_le_max),
      ERat.q_le_q.mpr (min_le_max)⟩

/-- Counterexample to C2 as stated: scaling the box `[0,1]³` (which
satisfies `min ≤ max`) by the vector `(-1,-1,-1)` via `operator*` yields a
box with `min = (0,0,0)` and `max = (-1,-1,-1)`, violating `min ≤ max`. -/
theorem claim_C2_counterexample :
    Vec3.le (Vec3.toERat ⟨0, 0, 0⟩) (Vec3.toERat ⟨1, 1, 1⟩) ∧
    (Box.mk (Vec3.toERat ⟨0, 0, 0⟩) (Vec3.toERat ⟨1, 1, 1⟩)).mul ⟨-1, -1, -1⟩ =
      some (Box.mk (Vec3.toERat ⟨0, 0, 0⟩) (Vec3.toERat ⟨-1, -1, -1⟩)) ∧
    ¬ Vec3.le (Vec3.toERat ⟨0, 0, 0⟩) (Vec3.toERat ⟨-1, -1, -1⟩) := by
  refine ⟨by decide, ?_, by decide⟩
  simp only [Box.mul, Vec3.mulQ, Vec3.toERat, ERat.q, ERat.mulQ,
    WithBot.recBotCoe_coe, WithTop.recTopCoe_coe, Option.bind_eq_bind,
    Option.some_bind]
  norm_num

/-- Witness for C2: the invariant parts applied at the concrete box
`[0,1]³` and its union with the default box. -/
theorem claim_C2_witness :
    Vec3.le (Box.ofPoints (Vec3.toERat ⟨0, 0, 0⟩) (Vec3.toERat ⟨1, 1, 1⟩)).min
      (Box.ofPoints (Vec3.toERat ⟨0, 0, 0⟩) (Vec3.toERat ⟨1, 1, 1⟩)).max ∧
    Vec3.le ((Box.ofPoints (Vec3.toERat ⟨0, 0, 0⟩)
        (Vec3.toERat ⟨1, 1, 1⟩)).union Box.default).min
      ((Box.ofPoints (Vec3.toERat ⟨0, 0, 0⟩)
        (Vec3.toERat ⟨1, 1, 1⟩)).union Box.default).max :=
  ⟨claim_C2.1 ⟨0, 0, 0⟩ ⟨1, 1, 1⟩,
   claim_C2.2.2.1 _ Box.default (by decide)⟩

/-- The box `Box({0,0,0},{1,1,1})` of the spec's boundary scenario. -/
def boxA : Box := Box.ofPoints (Vec3.toERat ⟨0, 0, 0⟩) (Vec3.toERat ⟨1, 1, 1⟩)

/-- The box `Box({2,2,2},{3,3,3})` of the spec's boundary scenario. -/
def boxB : Box := Box.ofPoints (Vec3.toERat ⟨2, 2, 2⟩) (Vec3.toERat ⟨3, 3, 3⟩)

/-- Claim C6: `DoesOverlap(box)` is the closed-interval intersection test
(for boxes with `min ≤ max` it holds iff the boxes share a common point,
so touching counts); `DoesOverlap(point)` depends only on the x and y
coordinates of the point; and the concrete boundary scenario:
`[0,1]³ ∪ [2,3]³ = [0,3]³`, the two original boxes do not overlap, and the
union contains both. -/
theorem claim_C6 :
    (∀ a b : Box, Vec3.le a.min a.max → Vec3.le b.min b.max →
      (a.doesOverlap b ↔ ∃ p : Vec3 ERat,
        (Vec3.le a.min p ∧ Vec3.le p a.max) ∧
        (Vec3.le b.min p ∧ Vec3.le p b.max))) ∧
    (∀ (b : Box) (p q : Vec3 ERat), p.x = q.x → p.y = q.y →
      (b.doesOverlapPt p ↔ b.doesOverlapPt q)) ∧
    (boxA.union boxB = Box.mk (Vec3.toERat ⟨0, 0, 0⟩) (Vec3.toERat ⟨3, 3, 3⟩) ∧
     ¬ boxA.doesOverlap boxB ∧
     (boxA.union boxB).contains boxA ∧ (boxA.union boxB).contains boxB) := by
  refine ⟨fun a b ha hb => ⟨fun h => ?_, fun ⟨p, hpa, hpb⟩ => ?_⟩,
    fun b p q hx hy => ?_, by decide, by decide, by decide, by decide⟩
  · refine ⟨Vec3.cmax a.min b.min, ⟨Vec3.le_cmax_left _ _, ?_⟩,
      Vec3.le_cmax_right _ _, ?_⟩
    · exact ⟨max_le ha.1 h.2.2.2.1, max_le ha.2.1 h.2.2.2.2.1,
        max_le ha.2.2 h.2.2.2.2.2⟩
    · exact ⟨max_le h.1 hb.1, max_le h.2.1 hb.2.1, max_le h.2.2.1 hb.2.2⟩
  · exact ⟨le_trans hpa.1.1 hpb.2.1, le_trans hpa.1.2.1 hpb.2.2.1,
      le_trans hpa.1.2.2 hpb.2.2.2, le_trans hpb.1.1 hpa.2.1,
      le_trans hpb.1.2.1 hpa.2.2.1, le_trans hpb.1.2.2 hpa.2.2.2⟩
  · unfold Box.doesOverlapPt
    rw [hx, hy]

/-- Witness for C6: the interval-intersection characterization applied to
the concrete box `[0,1]³` against itself. -/
theorem claim_C6_witness :
    ∃ p : Vec3 ERat,
      (Vec3.le boxA.min p ∧ Vec3.le p boxA.max) ∧
      (Vec3.le boxA.min p ∧ Vec3.le p boxA.max) :=
  (claim_C6.1 boxA boxA (by decide) (by decide)).mp (by decide)

/-- Component access `v[i]` for `i ∈ {0,1,2}` (glm `operator[]`). -/
def Vec3.comp {α : Type} : Vec3 α → Fin 3 → α
  | v, ⟨0, _⟩ => v.x
  | v, ⟨1, _⟩ => v.y
  | v, ⟨2, _⟩ => v.z
  | _, ⟨n + 3, h⟩ => absurd h (by omega)

/-- Component update `v[i] = a` for `i ∈ {0,1,2}` (glm `operator[]` as
lvalue). -/
def Vec3.setComp {α : Type} : Vec3 α → Fin 3 → α → Vec3 α
  | v, ⟨0, _⟩, a => ⟨a, v.y, v.z⟩
  | v, ⟨1, _⟩, a => ⟨v.x, a, v.z⟩
  | v, ⟨2, _⟩, a => ⟨v.x, v.y, a⟩
  | _, ⟨n + 3, h⟩, _ => absurd h (by omega)

/-- `struct BaryRef { int meshID, tri; glm::ivec3 vertBary; }`. -/
structure BaryRef where
  meshID : ℤ
  tri : ℤ
  vertBary : Vec3 ℤ
deriving DecidableEq

/-- `struct MeshRelation { std::vector<glm::vec3> barycentric;
std::vector<BaryRef> triBary; ... }`. -/
structure MeshRelation where
  barycentric : List (Vec3 ℚ)
  triBary : List BaryRef

/-- `glm::vec3 UVW(int tri, int vert)`:
```
glm::vec3 uvw(0.0f);
const int idx = triBary[tri].vertBary[vert];
if (idx < 0) {
  uvw[idx + 3] = 1;
} else {
  uvw = barycentric[idx];
}
return uvw;
```
Out-of-range accesses (`tri` beyond `triBary`, `idx + 3` outside `{0,1,2}`
in the sentinel branch, `idx` beyond `barycentric` in the table branch) are
undefined behaviour in C++ and modelled as `none`. -/
def MeshRelation.UVW (m : MeshRelation) (tri : ℕ) (vert : Fin 3) :
    Option (Vec3 ℚ) :=
  match m.triBary[tri]? with
  | none => none
  | some br =>
    let idx : ℤ := br.vertBary.comp vert
    if idx < 0 then
      if h : 0 ≤ idx + 3 ∧ idx + 3 < 3 then
        some (Vec3.setComp ⟨0, 0, 0⟩ ⟨(idx + 3).toNat, by omega⟩ 1)
      else none
    else m.barycentric[idx.toNat]?

/-- Sum of the three components of a barycentric vector. -/
def sum3 (v : Vec3 ℚ) : ℚ := v.x + v.y + v.z

theorem UVW_sentinel (m : MeshRelation) (tri : ℕ) (vert : Fin 3)
    (br : BaryRef) (idx : ℤ) (h1 : m.triBary[tri]? = some br)
    (h2 : br.vertBary.comp vert = idx) (hlo : -3 ≤ idx) (hhi : idx < 0) :
    m.UVW tri vert =
      some (Vec3.setComp ⟨0, 0, 0⟩ ⟨(idx + 3).toNat, by omega⟩ 1) := by
  unfold MeshRelation.UVW
  simp only [h1, h2]
  rw [if_pos hhi, dif_pos (by omega)]

theorem UVW_table (m : MeshRelation) (tri : ℕ) (vert : Fin 3)
    (br : BaryRef) (h1 : m.triBary[tri]? = some br)
    (h2 : 0 ≤ br.vertBary.comp vert) :
    m.UVW tri vert = m.barycentric[(br.vertBary.comp vert).toNat]? := by
  unfold MeshRelation.UVW
  simp only [h1]
  rw [if_neg (not_lt.mpr h2)]

/-- Claim C1 (amended): when `vertBary[vert]` holds the sentinel value
`-(k+1)` with `k ∈ {0,1,2}`, `UVW(tri, vert)` returns the one-hot vector
whose component `idx + 3 = 2 − k` equals 1 and whose other components are
0 (not component `k`); in both the sentinel case and the table case
(assuming the table entry sums to 1) the returned vector's components sum
to 1. -/
theorem claim_C1 :
    (∀ (m : MeshRelation) (tri : ℕ) (vert : Fin 3) (br : BaryRef) (k : ℕ),
      k < 3 →
      m.triBary[tri]? = some br →
      br.vertBary.comp vert = -(k + 1 : ℤ) →
      ∃ u, m.UVW tri vert = some u ∧
        u.comp ⟨2 - k, by omega⟩ = 1 ∧
        (∀ j : Fin 3, j.val ≠ 2 - k → u.comp j = 0) ∧
        sum3 u = 1) ∧
    (∀ (m : MeshRelation) (tri : ℕ) (vert : Fin 3) (br : BaryRef)
        (v : Vec3 ℚ),
      m.triBary[tri]? = some br →
      0 ≤ br.vertBary.comp vert →
      m.barycentric[(br.vertBary.comp vert).toNat]? = some v →
      sum3 v = 1 →
      m.UVW tri vert = some v ∧ sum3 v = 1) := by
  constructor
  · intro m tri vert br k hk h1 h2
    have hmain := UVW_sentinel m tri vert br (-(k + 1)) h1 h2 (by omega)
      (by omega)
    refine ⟨_, hmain, ?_, ?_, ?_⟩
    · interval_cases k <;> rfl
    · intro j hj
      rcases j with ⟨jv, hjv⟩
      interval_cases k <;> interval_cases jv <;>
        first | rfl | exact absurd rfl hj
    · interval_cases k
      · show sum3 ⟨0, 0, 1⟩ = 1
        norm_num [sum3]
      · show sum3 ⟨0, 1, 0⟩ = 1
        norm_num [sum3]
      · show sum3 ⟨1, 0, 0⟩ = 1
        norm_num [sum3]
  · intro m tri vert br v h1 h2 h3 h4
    exact ⟨(UVW_table m tri vert br h1 h2).trans h3, h4⟩

/-- Counterexample to C1 as stated: with sentinel `-1` (that is `k = 0`),
`UVW` returns `(0, 0, 1)` — the one-hot vector at component `2`, whose
component `k = 0` is `0`, not `1`. -/
theorem claim_C1_counterexample :
    MeshRelation.UVW ⟨[], [⟨0, 0, ⟨-1, -2, -3⟩⟩]⟩ 0 ⟨0, by omega⟩ =
      some ⟨0, 0, 1⟩ ∧
    (Vec3.mk (0 : ℚ) 0 1).comp ⟨0, by omega⟩ = 0 ∧ (0 : ℚ) ≠ 1 := by
  refine ⟨by decide, rfl, by norm_num⟩

/-- A concrete mesh relation: one barycentric-table entry summing to 1, one
triangle whose corner 0 is sentinel `-1`, corner 1 is table index `0`, and
corner 2 is sentinel `-3`. -/
def relM : MeshRelation :=
  ⟨[⟨1/2, 1/4, 1/4⟩], [⟨7, 4, ⟨-1, 0, -3⟩⟩]⟩

/-- Witness for C1: both branches applied on `relM`. -/
theorem claim_C1_witness :
    (∃ u, MeshRelation.UVW relM 0 ⟨0, by omega⟩ = some u ∧
      u.comp ⟨2 - 0, by omega⟩ = 1 ∧
      (∀ j : Fin 3, j.val ≠ 2 - 0 → u.comp j = 0) ∧
      sum3 u = 1) ∧
    (MeshRelation.UVW relM 0 ⟨1, by omega⟩ = some ⟨1/2, 1/4, 1/4⟩ ∧
      sum3 ⟨1/2, 1/4, 1/4⟩ = 1) :=
  ⟨claim_C1.1 relM 0 ⟨0, by omega⟩ ⟨7, 4, ⟨-1, 0, -3⟩⟩ 0 (by omega) rfl
      (by decide),
   claim_C1.2 relM 0 ⟨1, by omega⟩ ⟨7, 4, ⟨-1, 0, -3⟩⟩ ⟨1/2, 1/4, 1/4⟩ rfl
      (by decide) rfl (by norm_num [sum3])⟩

/-- Round to nearest integer, ties to even: the rounding IEEE-754
`remquo` applies to the quotient. -/
def rne (q : ℚ) : ℤ :=
  if q - ⌊q⌋ < 1 / 2 then ⌊q⌋
  else if 1 / 2 < q - ⌊q⌋ then ⌊q⌋ + 1
  else if ⌊q⌋ % 2 = 0 then ⌊q⌋ else ⌊q⌋ + 1

/-- `remquo(x, 90.0f, &quo)`: the exactly-computed remainder
`x - 90 * n` with `n` the round-to-nearest-even quotient, plus the
quotient itself (IEEE delivers at least the 3 low bits of `n`, enough to
determine `quo % 4`). -/
def remquo90 (x : ℚ) : ℚ × ℤ :=
  (x - 90 * rne (x / 90), rne (x / 90))

/-- The body of `sind` after the sign has been peeled off
(`x = remquo(fabs(x), 90.0f, &quo); switch (quo % 4) ...`).  The libm trig
calls are modelled by the function parameters: `s r` stands for
`sin(glm::radians(r))` and `c r` for `cos(glm::radians(r))`; note
`glm::radians(0) = 0`.  The trailing `return 0.0f` of the unreachable
fall-through is kept.  (The `!std::isfinite(x)` entry branch of `sind` has
no counterpart: every `ℚ` is finite.  `sind` only passes nonnegative
arguments here, so `quo ≥ 0` and C++ `%` agrees with `Int.emod`.) -/
def sindAbs (s c : ℚ → ℚ) (x : ℚ) : ℚ :=
  if (remquo90 |x|).2 % 4 = 0 then s (remquo90 |x|).1
  else if (remquo90 |x|).2 % 4 = 1 then c (remquo90 |x|).1
  else if (remquo90 |x|).2 % 4 = 2 then - s (remquo90 |x|).1
  else if (remquo90 |x|).2 % 4 = 3 then - c (remquo90 |x|).1
  else 0

/-- `float sind(float x)`: `if (x < 0.0f) return -sind(-x);` then the
quadrant dispatch of `sindAbs`. -/
def sind (s c : ℚ → ℚ) (x : ℚ) : ℚ :=
  if x < 0 then - sindAbs s c (-x) else sindAbs s c x

/-- Round a rational to the nearest binary32 (IEEE-754 single-precision)
value, ties to even: the rounding the float addition in `cosd` applies.
The unit in the last place is `2 ^ (⌊log₂ |q|⌋ − 23)`, clamped below at
the subnormal spacing `2 ^ (−149)`.  (Overflow to `±∞` is not modelled:
`x + 90.0f` never overflows for a finite float `x`, since for `|x| ≥ 2³⁰`
the sum rounds back to `x`.) -/
def fl32 (q : ℚ) : ℚ :=
  if q = 0 then 0
  else (2 : ℚ) ^ max (Int.log 2 |q| - 23) (-149) *
    rne (q / (2 : ℚ) ^ max (Int.log 2 |q| - 23) (-149))

/-- `float cosd(float x) { return sind(x + 90.0f); }`: the binary32 sum
`x + 90.0f` rounds to nearest even (`fl32`); for `|x| ≥ 2²⁵` the rounded
sum can differ from the exact `x + 90`. -/
def cosd (s c : ℚ → ℚ) (x : ℚ) : ℚ := sind s c (fl32 (x + 90))

theorem rne_intCast (m : ℤ) : rne (m : ℚ) = m := by
  unfold rne
  rw [Int.floor_intCast]
  norm_num

theorem remquo90_mul90 (m : ℤ) : remquo90 (90 * (m : ℚ)) = (0, m) := by
  unfold remquo90
  have h90 : (90 * (m : ℚ)) / 90 = (m : ℚ) := by
    field_simp
  rw [h90, rne_intCast]
  norm_num

theorem sindAbs_one_hot (s c : ℚ → ℚ) (hs : s 0 = 0) (hc : c 0 = 1)
    (m : ℤ) (hm : 0 ≤ m) :
    sindAbs s c (90 * (m : ℚ)) = 0 ∨ sindAbs s c (90 * (m : ℚ)) = 1 ∨
      sindAbs s c (90 * (m : ℚ)) = -1 := by
  unfold sindAbs
  have hnn : (0 : ℚ) ≤ 90 * (m : ℚ) :=
    mul_nonneg (by norm_num) (by exact_mod_cast hm)
  rw [abs_of_nonneg hnn, remquo90_mul90]
  rcases (by omega : m % 4 = 0 ∨ m % 4 = 1 ∨ m % 4 = 2 ∨ m % 4 = 3) with
    h | h | h | h <;> simp [h, hs, hc]

theorem rne_eq_of_floor_lt (q : ℚ) (n : ℤ) (hf : ⌊q⌋ = n)
    (h : q - n < 1 / 2) : rne q = n := by
  unfold rne
  rw [hf, if_pos h]

theorem rne_eq_of_floor_gt (q : ℚ) (n : ℤ) (hf : ⌊q⌋ = n)
    (h : 1 / 2 < q - n) : rne q = n + 1 := by
  unfold rne
  rw [hf, if_neg (by linarith), if_pos h]

theorem rne_eq_of_tie_even (q : ℚ) (n : ℤ) (hf : ⌊q⌋ = n)
    (h : q - n = 1 / 2) (he : n % 2 = 0) : rne q = n := by
  unfold rne
  rw [hf, if_neg (by rw [h]; exact lt_irrefl _),
    if_neg (by rw [h]; exact lt_irrefl _), if_pos he]

theorem log2_eq (r : ℚ) (hr : 0 < r) (m : ℤ) (h1 : (2 : ℚ) ^ m ≤ r)
    (h2 : r < (2 : ℚ) ^ (m + 1)) : Int.log 2 r = m := by
  have hcast : ((2 : ℕ) : ℚ) = (2 : ℚ) := by norm_num
  apply le_antisymm
  · have h := (Int.lt_zpow_iff_log_lt one_lt_two hr).mp (by rw [hcast]; exact h2)
    omega
  · exact (Int.zpow_le_iff_le_log one_lt_two hr).mp (by rw [hcast]; exact h1)

/-- `33554520 = 90 · 372828` is exactly representable in binary32
(between `2²⁵` and `2²⁶` the spacing is 4, and `4 ∣ 33554520`). -/
theorem fl32_33554520 : fl32 (33554520 : ℚ) = 33554520 := by
  have hq : (33554520 : ℚ) / 4 = ((8388630 : ℤ) : ℚ) := by norm_num
  have hrne : rne ((33554520 : ℚ) / 4) = 8388630 := by
    rw [hq, rne_intCast]
  unfold fl32
  rw [if_neg (by norm_num),
    show |(33554520 : ℚ)| = 33554520 from abs_of_pos (by norm_num),
    log2_eq 33554520 (by norm_num) 25 (by norm_num) (by norm_num),
    show max ((25 : ℤ) - 23) (-149) = 2 by decide,
    show (2 : ℚ) ^ (2 : ℤ) = 4 by norm_num, hrne]
  norm_num

/-- The binary32 sum `33554520.0f + 90.0f`: the exact sum `33554610` is a
tie between the representable neighbours `33554608` and `33554612`, and
ties-to-even rounds down to `33554608` — no longer a multiple of 90. -/
theorem fl32_33554610 : fl32 (33554610 : ℚ) = 33554608 := by
  have hfl : ⌊(33554610 : ℚ) / 4⌋ = 8388652 := by
    rw [Int.floor_eq_iff]
    norm_num
  have hrne : rne ((33554610 : ℚ) / 4) = 8388652 :=
    rne_eq_of_tie_even _ 8388652 hfl (by norm_num) (by decide)
  unfold fl32
  rw [if_neg (by norm_num),
    show |(33554610 : ℚ)| = 33554610 from abs_of_pos (by norm_num),
    log2_eq 33554610 (by norm_num) 25 (by norm_num) (by norm_num),
    show max ((25 : ℤ) - 23) (-149) = 2 by decide,
    show (2 : ℚ) ^ (2 : ℤ) = 4 by norm_num, hrne]
  norm_num

/-- `360` is exactly representable in binary32. -/
theorem fl32_360 : fl32 (360 : ℚ) = 360 := by
  have hq : (360 : ℚ) / (1 / 32768) = ((11796480 : ℤ) : ℚ) := by norm_num
  have hrne : rne ((360 : ℚ) / (1 / 32768)) = 11796480 := by
    rw [hq, rne_intCast]
  unfold fl32
  rw [if_neg (by norm_num),
    show |(360 : ℚ)| = 360 from abs_of_pos (by norm_num),
    log2_eq 360 (by norm_num) 8 (by norm_num) (by norm_num),
    show max ((8 : ℤ) - 23) (-149) = -15 by decide,
    show (2 : ℚ) ^ (-15 : ℤ) = 1 / 32768 by norm_num, hrne]
  norm_num

theorem rne_33554608_div_90 : rne ((33554608 : ℚ) / 90) = 372829 := by
  have hfl : ⌊(33554608 : ℚ) / 90⌋ = 372828 := by
    rw [Int.floor_eq_iff]
    norm_num
  rw [rne_eq_of_floor_gt _ 372828 hfl (by norm_num)]
  decide

/-- `remquo(33554608.0f, 90.0f, &quo)`: remainder `−2`, quotient
`372829 ≡ 1 (mod 4)`. -/
theorem remquo90_33554608 : remquo90 (33554608 : ℚ) = (-2, 372829) := by
  unfold remquo90
  rw [rne_33554608_div_90]
  norm_num [Prod.mk.injEq]

/-- Claim C7 (amended): for every multiple `90·n` of 90 degrees, `sind`
returns exactly one of −1, 0, 1 (given the libm exactness facts
`sin 0 = 0`, `cos 0 = 1`); `cosd` does so whenever the binary32 sum
`x + 90.0f` is again a multiple of 90 — in particular whenever that
addition is exact — but not in general: for `|x| ≥ 2²⁵` the rounded sum
can land off the 90-degree grid (see the counterexample). -/
theorem claim_C7 (s c : ℚ → ℚ) (hs : s 0 = 0) (hc : c 0 = 1) (n : ℤ) :
    (sind s c (90 * (n : ℚ)) = 0 ∨ sind s c (90 * (n : ℚ)) = 1 ∨
      sind s c (90 * (n : ℚ)) = -1) ∧
    (∀ m : ℤ, fl32 (90 * (n : ℚ) + 90) = 90 * (m : ℚ) →
      (cosd s c (90 * (n : ℚ)) = 0 ∨ cosd s c (90 * (n : ℚ)) = 1 ∨
        cosd s c (90 * (n : ℚ)) = -1)) := by
  have key : ∀ m : ℤ, sind s c (90 * (m : ℚ)) = 0 ∨
      sind s c (90 * (m : ℚ)) = 1 ∨ sind s c (90 * (m : ℚ)) = -1 := by
    intro m
    unfold sind
    rcases le_or_lt 0 m with hm | hm
    · rw [if_neg (not_lt.mpr (mul_nonneg (by norm_num) (by exact_mod_cast hm)))]
      exact sindAbs_one_hot s c hs hc m hm
    · have hneg : 90 * (m : ℚ) < 0 := by
        apply mul_neg_of_pos_of_neg (by norm_num)
        exact_mod_cast hm
      rw [if_pos hneg]
      have hcast : -(90 * (m : ℚ)) = 90 * (((-m : ℤ) : ℤ) : ℚ) := by
        push_cast
        ring
      rw [hcast]
      rcases sindAbs_one_hot s c hs hc (-m) (by omega) with h | h | h
      · exact Or.inl (by rw [h, neg_zero])
      · exact Or.inr (Or.inr (by rw [h]))
      · exact Or.inr (Or.inl (by rw [h, neg_neg]))
  refine ⟨key n, fun m hm => ?_⟩
  unfold cosd
  rw [hm]
  exact key m

/-- Counterexample to C7 as stated: `x = 33554520` is a binary32 value
(`fl32 x = x`, spacing 4 at that magnitude) and a finite float multiple
of 90 degrees (`x = 90 · 372828`), but the binary32 sum `x + 90.0f`
rounds (ties to even) to `33554608 = 90 · 372829 − 2`, so the program
computes `cosd(x) = cos(radians(−2°)) ≈ 0.99939`, not one of −1, 0, 1.
Exhibited with a libm interpretation that satisfies the exactness
hypotheses (`s 0 = 0`, `c 0 = 1`) yet makes `cosd` return `1/2`. -/
theorem claim_C7_counterexample :
    (33554520 : ℚ) = 90 * 372828 ∧
    fl32 (33554520 : ℚ) = 33554520 ∧
    ((fun _ : ℚ => (0 : ℚ)) 0 = 0) ∧
    ((fun r : ℚ => if r = 0 then (1 : ℚ) else 1 / 2) 0 = 1) ∧
    cosd (fun _ : ℚ => (0 : ℚ))
      (fun r : ℚ => if r = 0 then (1 : ℚ) else 1 / 2) (33554520 : ℚ) =
      1 / 2 ∧
    ¬ ((1 / 2 : ℚ) = 0 ∨ (1 / 2 : ℚ) = 1 ∨ (1 / 2 : ℚ) = -1) := by
  refine ⟨by norm_num, fl32_33554520, rfl, by norm_num, ?_, by norm_num⟩
  unfold cosd
  rw [show (33554520 : ℚ) + 90 = 33554610 by norm_num, fl32_33554610]
  unfold sind
  rw [if_neg (by norm_num)]
  unfold sindAbs
  rw [show |(33554608 : ℚ)| = 33554608 from abs_of_pos (by norm_num),
    remquo90_33554608]
  norm_num

/-- Witness for C7: the amended theorem applied with the constant
interpretations `s = fun _ => 0`, `c = fun _ => 1` at `n = 3` (270°),
where the float sum `270 + 90 = 360` is exact and still a multiple
of 90. -/
theorem claim_C7_witness :
    ((fun _ : ℚ => (0 : ℚ)) 0 = 0) ∧ ((fun _ : ℚ => (1 : ℚ)) 0 = 1) ∧
    fl32 (90 * ((3 : ℤ) : ℚ) + 90) = 90 * ((4 : ℤ) : ℚ) ∧
    (sind (fun _ => 0) (fun _ => 1) (90 * ((3 : ℤ) : ℚ)) = 0 ∨
      sind (fun _ => 0) (fun _ => 1) (90 * ((3 : ℤ) : ℚ)) = 1 ∨
      sind (fun _ => 0) (fun _ => 1) (90 * ((3 : ℤ) : ℚ)) = -1) ∧
    (cosd (fun _ => 0) (fun _ => 1) (90 * ((3 : ℤ) : ℚ)) = 0 ∨
      cosd (fun _ => 0) (fun _ => 1) (90 * ((3 : ℤ) : ℚ)) = 1 ∨
      cosd (fun _ => 0) (fun _ => 1) (90 * ((3 : ℤ) : ℚ)) = -1) := by
  have hfl : fl32 (90 * ((3 : ℤ) : ℚ) + 90) = 90 * ((4 : ℤ) : ℚ) := by
    rw [show 90 * ((3 : ℤ) : ℚ) + 90 = 360 by norm_num, fl32_360]
    norm_num
  exact ⟨rfl, rfl, hfl, (claim_C7 (fun _ => 0) (fun _ => 1) rfl rfl 3).1,
    (claim_C7 (fun _ => 0) (fun _ => 1) rfl rfl 3).2 4 hfl⟩

/-- A 4D vector (`glm::vec4`), used for RGBA colors and tangents. -/
structure Vec4 where
  x : ℚ
  y : ℚ
  z : ℚ
  w : ℚ
deriving DecidableEq

/-- `struct Mesh` from `structs.h`: vertex positions, optional per-vertex
normals, triangle index-triples, optional per-halfedge tangents. -/
structure Mesh where
  vertPos : List (Vec3 ℚ)
  vertNormal : List (Vec3 ℚ)
  triVerts : List (Vec3 ℤ)
  halfedgeTangent : List Vec4

/-- Modelled from the spec: the material descriptor of the export
configuration (declared in `meshIO.h`, which is not among the sources;
field names follow their uses in `ExportMesh`): scalar
roughness/metalness, RGBA base color, optional per-vertex color array. -/
structure Material where
  roughness : ℚ
  metalness : ℚ
  color : Vec4
  vertColor : List Vec4

/-- Modelled from the spec: the export configuration (declared in
`meshIO.h`, not among the sources): the `faceted` flag and the material
descriptor. -/
structure ExportOptions where
  faceted : Bool
  mat : Material

/-- The observable outcomes of `ExportMesh`, in the order the code can
reach them: the empty-mesh early return (prints a note, writes no file,
raises no error), the two `ALWAYS_ASSERT(..., userErr, ...)` validation
failures (thrown before the exporter is ever invoked, so before any output
is produced), and reaching the final `exporter.Export` call. -/
inductive ExportOutcome where
  | skippedEmpty
  | userErrorNormals
  | userErrorColors
  | exported
deriving DecidableEq

/-- Control flow of `void ExportMesh(filename, mesh, options)`
(`meshIO.cpp`):
```
if (mesh.triVerts.size() == 0) { ...; return; }
...
if (!options.faceted) {
  ALWAYS_ASSERT(mesh.vertNormal.size() == mesh.vertPos.size(), userErr, ...);
  ...
}
if (!options.mat.vertColor.empty()) {
  ALWAYS_ASSERT(mesh.vertPos.size() == options.mat.vertColor.size(), userErr, ...);
  ...
}
... exporter.Export(scene, ext, filename);
```
The filename only selects the output format; it does not affect which of
these outcomes is reached. -/
def ExportMesh (filename : String) (mesh : Mesh) (options : ExportOptions) :
    ExportOutcome :=
  if mesh.triVerts.length = 0 then .skippedEmpty
  else if options.faceted = false ∧
      mesh.vertNormal.length ≠ mesh.vertPos.length then .userErrorNormals
  else if options.mat.vertColor ≠ [] ∧
      mesh.vertPos.length ≠ options.mat.vertColor.length then .userErrorColors
  else .exported

/-- Claim C9: with `faceted = false`, a non-empty mesh whose vertex-normal
array length differs from its vertex-position array length makes
`ExportMesh` fail with a user error before any output is produced; and
likewise a non-empty vertex-color array of the wrong length. -/
theorem claim_C9 :
    (∀ (filename : String) (mesh : Mesh) (options : ExportOptions),
      options.faceted = false →
      mesh.triVerts ≠ [] →
      mesh.vertNormal.length ≠ mesh.vertPos.length →
      ExportMesh filename mesh options = .userErrorNormals ∧
      ExportMesh filename mesh options ≠ .exported) ∧
    (∀ (filename : String) (mesh : Mesh) (options : ExportOptions),
      mesh.triVerts ≠ [] →
      (options.faceted = true ∨ mesh.vertNormal.length = mesh.vertPos.length) →
      options.mat.vertColor ≠ [] →
      mesh.vertPos.length ≠ options.mat.vertColor.length →
      ExportMesh filename mesh options = .userErrorColors ∧
      ExportMesh filename mesh options ≠ .exported) := by
  constructor
  · intro fn mesh options hf hne hlen
    unfold ExportMesh
    rw [if_neg (by simpa using hne), if_pos ⟨hf, hlen⟩]
    exact ⟨rfl, by simp⟩
  · intro fn mesh options hne hfac hcol hlen
    unfold ExportMesh
    rw [if_neg (by simpa using hne), if_neg ?hfail, if_pos ⟨hcol, hlen⟩]
    case hfail =>
      rintro ⟨h1, h2⟩
      rcases hfac with hfac | hfac
      · rw [hfac] at h1
        exact absurd h1 (by simp)
      · exact h2 hfac
    exact ⟨rfl, by simp⟩

/-- Witness for C9: a mesh with one triangle, no vertices, and one normal
(faceted off) hits the normals error; a mesh with one triangle, no
vertices, and one vertex color hits the color error. -/
theorem claim_C9_witness :
    ExportMesh "file.glb" ⟨[], [⟨0, 0, 0⟩], [⟨0, 1, 2⟩], []⟩
      ⟨false, ⟨0, 0, ⟨0, 0, 0, 0⟩, []⟩⟩ = .userErrorNormals ∧
    ExportMesh "file.glb" ⟨[], [], [⟨0, 1, 2⟩], []⟩
      ⟨true, ⟨0, 0, ⟨0, 0, 0, 0⟩, [⟨0, 0, 0, 0⟩]⟩⟩ = .userErrorColors :=
  ⟨(claim_C9.1 "file.glb" _ _ rfl (by simp) (by simp)).1,
   (claim_C9.2 "file.glb" _ _ (by simp) (Or.inl rfl) (by simp) (by simp)).1⟩

/-- Claim C10: for every filename and options, `ExportMesh` on a mesh with
an empty triangle list takes the early return — no output file, no error,
and no option validation at all. -/
theorem claim_C10 (filename : String) (mesh : Mesh)
    (options : ExportOptions) (h : mesh.triVerts = []) :
    ExportMesh filename mesh options = .skippedEmpty := by
  unfold ExportMesh
  rw [if_pos (by simp [h])]

/-- Witness for C10: an empty-triangle mesh that would fail both
validation checks (`faceted = false` with a dangling normal, and a
dangling vertex color) still takes the silent early return. -/
theorem claim_C10_witness :
    ExportMesh "file.stl" ⟨[], [⟨0, 0, 0⟩], [], []⟩
      ⟨false, ⟨0, 0, ⟨0, 0, 0, 0⟩, [⟨0, 0, 0, 0⟩]⟩⟩ = .skippedEmpty :=
  claim_C10 "file.stl" _ _ rfl

end manifold

